import Mathlib

/-!
Verification of the meeting-room occupancy monitor backend.

This file shallowly embeds the core backend code:

* `backend/deserialize_util.py` — the FlatBuffers detection decoder
  (`DeserializeUtil.deserialize_flatbuffers`), including the byte-level
  read primitives of the `flatbuffers` Python runtime it calls
  (`encode.Get` / `struct.unpack_from`, `Table.Offset`, `Table.Indirect`,
  `Table.Vector`, `Table.VectorLen`).
* `backend/device_manager.py` — `DeviceState` and `DeviceManager`.
* `backend/server.py` — the device-id resolution of
  `update_inference_result` and `WebSocketConnectionManager.broadcast_json`.

Python exceptions are modelled with `Option` (`none` = an exception was
raised); wall-clock reads (`time.time()`) are lifted to an explicit `now`
parameter of type `ℚ`.
-/

namespace MeetingRoom

/-! ## Byte-level read primitives

A buffer is a list of byte values.  `readBytes` models Python's
`struct.unpack_from(fmt, buf, offset)`: a negative offset counts from the
end of the buffer, and a read that does not fit inside the buffer raises
`struct.error` (modelled as `none`). -/

abbrev Buf := List Nat

def readBytes (buf : Buf) (off : Int) (width : Nat) : Option (List Nat) :=
  let eff : Int := if off < 0 then off + buf.length else off
  if 0 ≤ eff ∧ eff + width ≤ buf.length then
    some ((buf.drop eff.toNat).take width)
  else
    none

/-- Little-endian value of a byte list. -/
def leVal (bs : List Nat) : Nat := bs.foldr (fun b acc => b + 256 * acc) 0

def readU32 (buf : Buf) (off : Int) : Option Nat := (readBytes buf off 4).map leVal

def readU16 (buf : Buf) (off : Int) : Option Nat := (readBytes buf off 2).map leVal

def readU8 (buf : Buf) (off : Int) : Option Nat := (readBytes buf off 1).map leVal

/-- Signed 32-bit little-endian read (two's complement). -/
def readI32 (buf : Buf) (off : Int) : Option Int :=
  (readBytes buf off 4).map fun bs =>
    if leVal bs < 2 ^ 31 then (leVal bs : Int) else (leVal bs : Int) - 2 ^ 32

/-! ## FlatBuffers `Table` operations (from the `flatbuffers` Python runtime)

A table is a position `pos` into the buffer.  These mirror
`flatbuffers.table.Table.Offset / Indirect / Vector / VectorLen`. -/

/-- `Table.Offset(vtableOffset)`: look up a field's offset in the vtable;
`some 0` means the field is absent. -/
def tableOffset (buf : Buf) (pos : Nat) (vtableOffset : Nat) : Option Nat :=
  (readI32 buf pos).bind fun so =>
    let vtable : Int := (pos : Int) - so
    (readU16 buf vtable).bind fun vtableEnd =>
      if vtableOffset < vtableEnd then readU16 buf (vtable + vtableOffset) else some 0

/-- `Table.Indirect(off)`: follow a 32-bit relative offset stored at `off`. -/
def tableIndirect (buf : Buf) (off : Nat) : Option Nat :=
  (readU32 buf off).map fun u => off + u

/-- `Table.Vector(off)`: start of the data of the vector whose offset is
stored at field offset `o` of the table at `pos` (skips the length word). -/
def tableVector (buf : Buf) (pos o : Nat) : Option Nat :=
  (readU32 buf (o + pos)).map fun u => o + pos + u + 4

/-- `Table.VectorLen(off)`: length of the vector whose offset is stored at
field offset `o` of the table at `pos`. -/
def tableVectorLen (buf : Buf) (pos o : Nat) : Option Nat :=
  (readU32 buf (o + pos)).bind fun u => readU32 buf (o + pos + u)

/-! ## The decoder `DeserializeUtil.deserialize_flatbuffers` -/

/-- One decoded detection record, i.e. the dict
`{"C": class_id, "P": score, "X": left, "Y": top, "x": right, "y": bottom}`
built by `deserialize_flatbuffers`.  The score is kept as its raw 32-bit
pattern: IEEE-754 decoding is a bijection on those 32 bits and no claim
depends on the float's numeric value. -/
structure Detection where
  C : Nat
  P : Nat
  X : Int
  Y : Int
  x : Int
  y : Int
deriving DecidableEq, Repr

/-- Position of the `i`-th detection table: `Vector(o)` plus `i * 4`,
then `Indirect`. -/
def detTablePos (buf : Buf) (pPos o i : Nat) : Option Nat :=
  (tableVector buf pPos o).bind fun vb => tableIndirect buf (vb + i * 4)

/-- `ClassId` (slot 4, unsigned 32-bit, default 0). -/
def detClassId (buf : Buf) (x : Nat) : Option Nat :=
  (tableOffset buf x 4).bind fun cOff =>
    if cOff = 0 then some 0 else readU32 buf (cOff + x)

/-- `Score` (slot 10, 32-bit float kept as its raw pattern, default 0). -/
def detScoreBits (buf : Buf) (x : Nat) : Option Nat :=
  (tableOffset buf x 10).bind fun sOff =>
    if sOff = 0 then some 0 else readU32 buf (sOff + x)

/-- `BoundingBoxType` (slot 6, unsigned 8-bit, default 0). -/
def detBBoxType (buf : Buf) (x : Nat) : Option Nat :=
  (tableOffset buf x 6).bind fun bOff =>
    if bOff = 0 then some 0 else readU8 buf (bOff + x)

/-- One coordinate of the nested `BoundingBox` table (signed 32-bit,
default 0). -/
def bboxCoord (buf : Buf) (bpos slot : Nat) : Option Int :=
  (tableOffset buf bpos slot).bind fun o =>
    if o = 0 then some 0 else readI32 buf (o + bpos)

/-- Body of the per-index loop of `deserialize_flatbuffers` (lines 71–137):
`some d` exactly when the source appends a record for index `i`; `none`
covers the silently skipped cases (`bbox_type ≠ 1`, absent nested table)
and any exception caught by the per-index `try`. -/
def decodeDetectionAt (buf : Buf) (pPos o i : Nat) : Option Detection :=
  (detTablePos buf pPos o i).bind fun x =>
  (detClassId buf x).bind fun class_id =>
  (detScoreBits buf x).bind fun score =>
  (detBBoxType buf x).bind fun bbox_type =>
  if bbox_type = 1 then
    (tableOffset buf x 8).bind fun boxOff =>
    if boxOff = 0 then none
    else
      (tableIndirect buf (boxOff + x)).bind fun bpos =>
      (bboxCoord buf bpos 4).bind fun left =>
      (bboxCoord buf bpos 6).bind fun top =>
      (bboxCoord buf bpos 8).bind fun right =>
      (bboxCoord buf bpos 10).bind fun bottom =>
      some ⟨class_id, score, left, top, right, bottom⟩
  else none

/-- Top of `deserialize_flatbuffers` (lines 47–68): root offset, root
table, `Perception` field (slot 4), `ObjectDetectionList` field (slot 4)
and its vector length.  `none` covers both the explicit empty returns
(absent field, i.e. offset 0) and any exception caught by the outer
`try`; in every such case the source returns `[]`. -/
def deserializeHeader (buf : Buf) : Option (Nat × Nat × Nat) :=
  (readU32 buf 0).bind fun table_pos =>
  (tableOffset buf table_pos 4).bind fun o =>
  if o = 0 then none
  else
    (tableIndirect buf (o + table_pos)).bind fun pPos =>
    (tableOffset buf pPos 4).bind fun o2 =>
    if o2 = 0 then none
    else
      (tableVectorLen buf pPos o2).bind fun len =>
      some (pPos, o2, len)

/-- The `for i in range(list_length)` loop accumulating `results`:
append the decoded record on success, append nothing on a skipped index
(`(some d).toList = [d]`, `none.toList = []`). -/
def detectLoop (buf : Buf) (pPos o len : Nat) : List Detection :=
  (List.range len).foldl
    (fun acc i => acc ++ (decodeDetectionAt buf pPos o i).toList)
    []

/-- `DeserializeUtil.deserialize_flatbuffers`: total — every exception is
caught inside the function and turned into `[]` (outer `try`) or a skipped
index (inner `try`). -/
def deserialize_flatbuffers (buf : Buf) : List Detection :=
  match deserializeHeader buf with
  | some (pPos, o, len) => detectLoop buf pPos o len
  | none => []

/-- A sample well-formed buffer: root table, `Perception` at slot 4,
`ObjectDetectionList` with two elements; element 0 has `BoundingBoxType = 1`
(with box `(10, 20, 30, 40)`, class 0, score bits `0x3F000000`), element 1
has `BoundingBoxType = 0` and is skipped. -/
def sampleBuf : Buf :=
  [10, 0, 0, 0,
   6, 0, 8, 0, 4, 0,
   6, 0, 0, 0,
   10, 0, 0, 0,
   6, 0, 8, 0, 4, 0,
   6, 0, 0, 0,
   4, 0, 0, 0,
   2, 0, 0, 0,
   20, 0, 0, 0,
   68, 0, 0, 0,
   12, 0, 20, 0, 4, 0, 8, 0, 16, 0, 12, 0,
   12, 0, 0, 0,
   0, 0, 0, 0,
   1, 0, 0, 0,
   0, 0, 0, 63,
   16, 0, 0, 0,
   12, 0, 20, 0, 4, 0, 8, 0, 12, 0, 16, 0,
   12, 0, 0, 0,
   10, 0, 0, 0,
   20, 0, 0, 0,
   30, 0, 0, 0,
   40, 0, 0, 0,
   64, 0, 0, 0,
   0, 0, 0, 0,
   0, 0, 0, 0,
   0, 0, 0, 0,
   0, 0, 0, 0]

/-! ## `DeviceState` (backend/device_manager.py) -/

/-- One entry of the `DeserializedData` dict: only its `"C"` value (the
class id) affects the device state, so an entry is modelled by that value;
`none` models a dict without a `"C"` key (`detection.get("C", -1)` then
yields `-1`). -/
structure DetEntry where
  C : Option Int
deriving DecidableEq

/-- The inference payload handed to `process_inference_data`:
`deserializedData` is the value of the `"DeserializedData"` key when the
key is present (in `.values()` order); `none` models a dict without it. -/
structure InferenceData where
  deserializedData : Option (List DetEntry)
deriving DecidableEq

/-- The fields set by `DeviceState.__init__`; wall-clock instants are
rationals (`0` is Python's initial `0`). -/
structure DeviceState where
  device_id : String
  display_name : String
  background_image : String
  connected : Bool
  inference_active : Bool
  last_update_time : ℚ
  operation_state : String
  people_count : Nat
  last_detection_time : ℚ
  last_inference_data : Option InferenceData
deriving DecidableEq

/-- `DeviceState.__init__(device_id, display_name, background_image)`. -/
def DeviceState.init (device_id display_name background_image : String) : DeviceState :=
  { device_id := device_id
    display_name := display_name
    background_image := background_image
    connected := false
    inference_active := false
    last_update_time := 0
    operation_state := "Unknown"
    people_count := 0
    last_detection_time := 0
    last_inference_data := none }

/-- The `people_detections` list of `process_inference_data`: values of
`DeserializedData` whose `"C"` value (default `-1`) equals `0`. -/
def peopleDetections (data : InferenceData) : List DetEntry :=
  match data.deserializedData with
  | some l => l.filter fun det => det.C.getD (-1) == 0
  | none => []

set_option linter.unusedVariables false in
/-- `DeviceState.process_inference_data` (lines 69–91): store the payload,
recompute `people_count`, and set `last_detection_time := now`
(`time.time()`) when the new count is positive.  The `vacant_time_minutes`
parameter is kept from the source signature though the body never reads
it. -/
def DeviceState.process_inference_data (s : DeviceState) (inference_data : InferenceData)
    (vacant_time_minutes : ℤ) (now : ℚ) : DeviceState :=
  let s1 := { s with last_inference_data := some inference_data
                     people_count := (peopleDetections inference_data).length }
  if 0 < s1.people_count then { s1 with last_detection_time := now } else s1

/-- `DeviceState.get_occupancy_state` (lines 93–116); `current_time`
(`time.time()`) is the explicit `now`. -/
def DeviceState.get_occupancy_state (s : DeviceState) (vacant_time_minutes : ℤ)
    (now : ℚ) : String :=
  if 0 < s.people_count then "occupied"
  else if 0 < s.last_detection_time then
    if (now - s.last_detection_time) / 60 < (vacant_time_minutes : ℚ) then "possibly_occupied"
    else "vacant"
  else "vacant"

/-! ## `DeviceManager` (backend/device_manager.py) -/

/-- `id_to_index`, a Python dict kept as its (key, value) pairs in
insertion/iteration order. -/
abbrev IdIndex := List (String × Nat)

/-- Python `d[k]` / `d.get(k)` / `k in d`: the value at the first (in a
dict, only) entry holding key `k`. -/
def dictLookup : IdIndex → String → Option Nat
  | [], _ => none
  | p :: d, k => if p.1 == k then some p.2 else dictLookup d k

/-- Python `d[k] = v`: overwrite the entry in place when the key is
present (its position is kept), append otherwise. -/
def dictInsert : IdIndex → String → Nat → IdIndex
  | [], k, v => [(k, v)]
  | p :: d, k, v => if p.1 == k then (k, v) :: d else p :: dictInsert d k v

/-- Python `del d[k]` (every caller guards it with `k in d`). -/
def dictDelete : IdIndex → String → IdIndex
  | [], _ => []
  | p :: d, k => if p.1 == k then d else p :: dictDelete d k

/-- Python `d.keys()`, in iteration order. -/
def dictKeys (d : IdIndex) : List String := d.map Prod.fst

/-- The slot-state part of `DeviceManager` (the `aitrios_client` and
`command_param_manager` collaborators hold no slot state). -/
structure DeviceManager where
  vacant_time_minutes : ℤ
  devices : List DeviceState
  id_to_index : IdIndex
deriving DecidableEq

/-- `DeviceManager._update_id_mapping` (lines 174–179): rebuild the index
from scratch, skipping empty (falsy) ids. -/
def updateIdMapping (devices : List DeviceState) : IdIndex :=
  devices.enum.foldl
    (fun d p => if p.2.device_id ≠ "" then dictInsert d p.2.device_id p.1 else d)
    []

/-- One entry of the configured `devices` list: a dict whose three keys
are each optional. -/
structure DeviceConfig where
  device_id : Option String
  display_name : Option String
  background_image : Option String
deriving DecidableEq

/-- `DeviceManager.__init__` (lines 146–172): always exactly five slots
(`for i in range(5)`), the `i`-th taking its fields from `devices[i]`
when that entry exists (`devices[i] if devices and len(devices) > i else
{}`, each key defaulting to `""`), then `_update_id_mapping`. -/
def mkDeviceManager (vacant_time_minutes : ℤ) (devices : List DeviceConfig) : DeviceManager :=
  let devs := (List.range 5).map fun i =>
    let cfg := devices[i]?.getD ⟨none, none, none⟩
    DeviceState.init (cfg.device_id.getD "") (cfg.display_name.getD "")
      (cfg.background_image.getD "")
  { vacant_time_minutes := vacant_time_minutes
    devices := devs
    id_to_index := updateIdMapping devs }

/-- `DeviceManager.update_device_info` (lines 181–204).  `info` carries
the optional `"device_id"` and `"display_name"` keys (the only ones the
source reads); `index` is any integer, checked by `0 <= index <
len(self.devices)`.  The `none` row of the inner match is unreachable
(the bound check makes the Python indexing succeed). -/
def update_device_info (m : DeviceManager) (index : Int)
    (info_device_id info_display_name : Option String) : DeviceManager :=
  if 0 ≤ index ∧ index < m.devices.length then
    match m.devices[index.toNat]? with
    | some device =>
      let old_device_id := device.device_id
      let new_device_id := info_device_id.getD old_device_id
      let idx1 :=
        if old_device_id ≠ new_device_id then
          let d1 :=
            if (dictLookup m.id_to_index old_device_id).isSome then
              dictDelete m.id_to_index old_device_id
            else m.id_to_index
          if new_device_id ≠ "" then dictInsert d1 new_device_id index.toNat else d1
        else m.id_to_index
      let device1 := { device with device_id := new_device_id
                                   display_name := info_display_name.getD device.display_name }
      { m with devices := m.devices.set index.toNat device1, id_to_index := idx1 }
    | none => m
  else m

/-- `DeviceManager.update_device_background` (lines 206–215). -/
def update_device_background (m : DeviceManager) (index : Int)
    (background_path : String) : DeviceManager :=
  if 0 ≤ index ∧ index < m.devices.length then
    match m.devices[index.toNat]? with
    | some device =>
      { m with devices :=
          m.devices.set index.toNat { device with background_image := background_path } }
    | none => m
  else m

/-- `DeviceManager.process_inference_data` (lines 230–240): update the
slot bound to `device_id`, or do nothing when the id is unbound.  The
`none` row of the inner match is unreachable when the index is consistent
with the device list. -/
def DeviceManager.process_inference_data (m : DeviceManager) (device_id : String)
    (inference_data : InferenceData) (now : ℚ) : DeviceManager :=
  match dictLookup m.id_to_index device_id with
  | some index =>
    match m.devices[index]? with
    | some device =>
      let device1 := device.process_inference_data inference_data m.vacant_time_minutes now
      { m with devices := m.devices.set index device1 }
    | none => m
  | none => m

/-- Python `str.startswith(pre)`. -/
def pyStartsWith (s pre : String) : Bool := pre.toList.isPrefixOf s.toList

/-- Python `str.endswith(suf)`. -/
def pyEndsWith (s suf : String) : Bool := suf.toList.isSuffixOf s.toList

/-- The device-id resolution of `update_inference_result`
(backend/server.py lines 662–670): an id that already starts with
`"Aid-"` is used unchanged; otherwise the first bound canonical id (in
index iteration order) that ends with the raw id replaces it; with no
match the raw id stays as it is. -/
def resolveDeviceId (m : DeviceManager) (device_id : String) : String :=
  if pyStartsWith device_id "Aid-" then device_id
  else
    match (dictKeys m.id_to_index).find? (fun full => pyEndsWith full device_id) with
    | some full => full
    | none => device_id

/-- The slot-state effect of one `PUT /meta/{device_id}` request carrying
decoded detections (backend/server.py lines 662–677): resolve the raw id,
then hand the payload to `DeviceManager.process_inference_data`. -/
def ingest (m : DeviceManager) (device_id : String) (inference_data : InferenceData)
    (now : ℚ) : DeviceManager :=
  m.process_inference_data (resolveDeviceId m device_id) inference_data now

/-! ## `WebSocketConnectionManager` (backend/server.py) -/

/-- The set of active connections in iteration order; connections are
opaque handles, modelled as `Nat`. -/
structure WSManager where
  active_connections : List Nat
deriving DecidableEq

/-- The send loop of `broadcast_json`: one pass over the connections,
collecting delivered and failed (to-disconnect) connections in order;
`fails c = true` models `connection.send_json` raising. -/
def broadcastLoop (conns : List Nat) (fails : Nat → Bool) : List Nat × List Nat :=
  conns.foldl
    (fun acc c => if fails c then (acc.1, acc.2 ++ [c]) else (acc.1 ++ [c], acc.2))
    ([], [])

/-- The cleanup loop of `broadcast_json`:
`for connection in disconnected_clients: self.disconnect(connection)`. -/
def removeAll (conns : List Nat) (ds : List Nat) : List Nat :=
  ds.foldl (fun cs d => cs.erase d) conns

/-- `WebSocketConnectionManager.broadcast_json` (lines 151–169): the
manager after the broadcast, paired with the list of connections that
received the message. -/
def broadcast_json (m : WSManager) (fails : Nat → Bool) : WSManager × List Nat :=
  let p := broadcastLoop m.active_connections fails
  (⟨removeAll m.active_connections p.2⟩, p.1)

/-- No two distinct slots hold the same non-empty device id. -/
def NoDupIds (devices : List DeviceState) : Prop :=
  ∀ (i j : Nat) (di dj : DeviceState), i ≠ j →
    devices[i]? = some di → devices[j]? = some dj →
    di.device_id = dj.device_id → di.device_id = ""

/-- The reverse index is exact: it maps `id` to `idx` precisely when slot
`idx` holds `id` as its non-empty `device_id`. -/
def IndexSpec (m : DeviceManager) : Prop :=
  ∀ id idx, dictLookup m.id_to_index id = some idx ↔
    id ≠ "" ∧ ∃ dev, m.devices[idx]? = some dev ∧ dev.device_id = id

/-- The deviceId↔slot bijection stated by the spec: no two slots hold the
same non-empty id and the reverse index maps an id to an index exactly
when that slot holds it, together with the structural property — automatic
for a Python dict — that the index holds no duplicate keys. -/
def MappingConsistent (m : DeviceManager) : Prop :=
  NoDupIds m.devices ∧ (dictKeys m.id_to_index).Nodup ∧ IndexSpec m

/-- A sample slot state: bound to `"Aid-1"`, currently counting three
people, last detection at instant `100`. -/
def sampleState : DeviceState :=
  { device_id := "Aid-1"
    display_name := "Room A"
    background_image := ""
    connected := true
    inference_active := true
    last_update_time := 0
    operation_state := "StreamingBoth"
    people_count := 3
    last_detection_time := 100
    last_inference_data := none }

/-- A sample payload whose `DeserializedData` holds two class-0 (person)
detections. -/
def sampleData2 : InferenceData := ⟨some [⟨some 0⟩, ⟨some 0⟩]⟩

/-- A manager configured with a single bound slot holding the canonical
id `"Aid-80070001-0000-2000-9002-000000000a53"`. -/
def sampleManager : DeviceManager :=
  mkDeviceManager 5
    [⟨some "Aid-80070001-0000-2000-9002-000000000a53", some "Room 1", none⟩]

theorem foldl_append_eq_filterMap {α β : Type} (f : α → Option β) (l : List α)
    (acc : List β) :
    l.foldl (fun acc i => acc ++ (f i).toList) acc = acc ++ l.filterMap f := by
  induction l generalizing acc with
  | nil => simp
  | cons hd tl ih => cases hfa : f hd <;> simp [List.filterMap_cons, hfa, ih]

theorem detectLoop_eq_filterMap (buf : Buf) (pPos o len : Nat) :
    detectLoop buf pPos o len = (List.range len).filterMap (decodeDetectionAt buf pPos o) := by
  rw [detectLoop]
  exact (foldl_append_eq_filterMap (decodeDetectionAt buf pPos o) (List.range len) []).trans
    (List.nil_append _)

/-- C1: `deserialize_flatbuffers` is total (it is a Lean function; every
Python exception path is modelled inside it), and on every top-level
malformance — buffer too short for the 4-byte root offset, zero root
offset, absent `Perception` field (vtable lookup 0), absent
`ObjectDetectionList` field (vtable lookup 0) — it returns the empty
detection list. -/
theorem deserialize_flatbuffers_empty_on_malformed (buf : Buf) :
    (buf.length < 4 → deserialize_flatbuffers buf = []) ∧
    (readU32 buf 0 = some 0 → deserialize_flatbuffers buf = []) ∧
    (∀ tp, readU32 buf 0 = some tp → tableOffset buf tp 4 = some 0 →
      deserialize_flatbuffers buf = []) ∧
    (∀ tp o pPos, readU32 buf 0 = some tp → tableOffset buf tp 4 = some o → o ≠ 0 →
      tableIndirect buf (o + tp) = some pPos → tableOffset buf pPos 4 = some 0 →
      deserialize_flatbuffers buf = []) := by
  refine ⟨?_, ?_, ?_, ?_⟩
  · intro hlen
    have hnone : readU32 buf 0 = none := by
      simp only [readU32, readBytes, Option.map_eq_none]
      split <;> simp_all
    simp [deserialize_flatbuffers, deserializeHeader, hnone]
  · intro h0
    have hoff : tableOffset buf 0 4 = some 0 := by
      match buf, h0 with
      | b0 :: b1 :: b2 :: b3 :: t, h0 =>
        simp [readU32, readBytes] at h0
        have hb : leVal [b0, b1, b2, b3] = 0 := h0.2
        simp only [leVal, List.foldr] at hb
        have hb0 : b0 = 0 := by omega
        have hb1 : b1 = 0 := by omega
        have hb2 : b2 = 0 := by omega
        have hb3 : b3 = 0 := by omega
        subst hb0; subst hb1; subst hb2; subst hb3
        have h4 : (4 : Int) ≤ (t.length : Int) + 1 + 1 + 1 + 1 := by omega
        have h2 : (2 : Int) ≤ (t.length : Int) + 1 + 1 + 1 + 1 := by omega
        norm_num [tableOffset, readI32, readU16, readBytes, leVal, h4, h2]
    simp [deserialize_flatbuffers, deserializeHeader, h0, hoff]
  · intro tp h1 h2
    simp [deserialize_flatbuffers, deserializeHeader, h1, h2]
  · intro tp o pPos h1 h2 ho h3 h4
    simp [deserialize_flatbuffers, deserializeHeader, h1, h2, ho, h3, h4]

theorem deserialize_flatbuffers_empty_on_malformed_witness :
    deserialize_flatbuffers [0, 0, 0, 0] = [] :=
  (deserialize_flatbuffers_empty_on_malformed [0, 0, 0, 0]).2.1 (by decide)

/-- C2: whenever the root, `Perception` table and detection vector are
readable (`deserializeHeader` succeeds with vector length `len`), the
result is exactly the in-order `filterMap` of the per-index decoder over
indices `0..len-1` — so each index yields at most one record, skipped
indices never abort the decode, and surviving records keep the original
vector order.  Moreover an index yields a record only if its
`BoundingBoxType` is `1` and its nested bounding-box table offset is
present (non-zero), and an index whose `BoundingBoxType` is any other
value, or whose nested table offset is absent, yields no record. -/
theorem deserialize_flatbuffers_per_index (buf : Buf) (pPos o len : Nat)
    (h : deserializeHeader buf = some (pPos, o, len)) :
    deserialize_flatbuffers buf = (List.range len).filterMap (decodeDetectionAt buf pPos o) ∧
    (∀ i d, decodeDetectionAt buf pPos o i = some d →
      ∃ x, detTablePos buf pPos o i = some x ∧ detBBoxType buf x = some 1 ∧
        ∃ bo, tableOffset buf x 8 = some bo ∧ bo ≠ 0) ∧
    (∀ i x b, detTablePos buf pPos o i = some x → detBBoxType buf x = some b → b ≠ 1 →
      decodeDetectionAt buf pPos o i = none) ∧
    (∀ i x, detTablePos buf pPos o i = some x → detBBoxType buf x = some 1 →
      tableOffset buf x 8 = some 0 → decodeDetectionAt buf pPos o i = none) := by
  refine ⟨?_, ?_, ?_, ?_⟩
  · simp [deserialize_flatbuffers, h, detectLoop_eq_filterMap]
  · intro i d hd
    rw [decodeDetectionAt, Option.bind_eq_some] at hd
    obtain ⟨x, hx, hd⟩ := hd
    rw [Option.bind_eq_some] at hd
    obtain ⟨c, hc, hd⟩ := hd
    rw [Option.bind_eq_some] at hd
    obtain ⟨s, hs, hd⟩ := hd
    rw [Option.bind_eq_some] at hd
    obtain ⟨b, hb, hd⟩ := hd
    by_cases hb1 : b = 1
    · subst hb1
      rw [if_pos rfl, Option.bind_eq_some] at hd
      obtain ⟨bo, hbo, hd⟩ := hd
      refine ⟨x, hx, hb, bo, hbo, ?_⟩
      intro hbo0
      subst hbo0
      rw [if_pos rfl] at hd
      exact Option.noConfusion hd
    · rw [if_neg hb1] at hd
      exact Option.noConfusion hd
  · intro i x b h1 h2 hb
    rw [decodeDetectionAt, h1, Option.some_bind]
    cases hc : detClassId buf x with
    | none => rfl
    | some c =>
      rw [Option.some_bind]
      cases hs : detScoreBits buf x with
      | none => rfl
      | some s =>
        rw [Option.some_bind, h2, Option.some_bind, if_neg hb]
  · intro i x h1 h2 h3
    rw [decodeDetectionAt, h1, Option.some_bind]
    cases hc : detClassId buf x with
    | none => rfl
    | some c =>
      rw [Option.some_bind]
      cases hs : detScoreBits buf x with
      | none => rfl
      | some s =>
        rw [Option.some_bind, h2, Option.some_bind, if_pos rfl, h3, Option.some_bind,
          if_pos rfl]

set_option maxRecDepth 100000 in
theorem deserialize_flatbuffers_per_index_witness :
    deserialize_flatbuffers sampleBuf
        = (List.range 2).filterMap (decodeDetectionAt sampleBuf 24 4) ∧
      deserialize_flatbuffers sampleBuf = [⟨0, 1056964608, 10, 20, 30, 40⟩] :=
  ⟨(deserialize_flatbuffers_per_index sampleBuf 24 4 2 (by decide)).1, by decide⟩

/-- C3: `get_occupancy_state` returns `"occupied"` iff `people_count > 0`;
otherwise `"possibly_occupied"` iff `last_detection_time` is set
(positive) and the elapsed minutes `(now - last_detection_time) / 60` are
strictly below the threshold; otherwise `"vacant"` — covering both the
never-detected slot and an elapsed time at or beyond the threshold. -/
theorem get_occupancy_state_cases (s : DeviceState) (vac : ℤ) (now : ℚ) :
    (s.get_occupancy_state vac now = "occupied" ↔ 0 < s.people_count) ∧
    (s.get_occupancy_state vac now = "possibly_occupied" ↔
      s.people_count = 0 ∧ 0 < s.last_detection_time ∧
        (now - s.last_detection_time) / 60 < (vac : ℚ)) ∧
    (s.get_occupancy_state vac now = "vacant" ↔
      s.people_count = 0 ∧
        (s.last_detection_time ≤ 0 ∨ (vac : ℚ) ≤ (now - s.last_detection_time) / 60)) := by
  by_cases h1 : 0 < s.people_count <;>
    by_cases h2 : 0 < s.last_detection_time <;>
      by_cases h3 : (now - s.last_detection_time) / 60 < (vac : ℚ) <;>
        simp [DeviceState.get_occupancy_state, h1, h2, h3] <;>
          first
            | omega
            | (constructor <;> first | omega | simp_all)

theorem get_occupancy_state_cases_witness :
    sampleState.get_occupancy_state 5 200 = "occupied" :=
  (get_occupancy_state_cases sampleState 5 200).1.mpr (by decide)

/-- Normalized form of `DeviceState.process_inference_data`. -/
theorem process_inference_data_def (s : DeviceState) (data : InferenceData)
    (vac : ℤ) (now : ℚ) :
    s.process_inference_data data vac now =
      { s with
          last_inference_data := some data
          people_count := (peopleDetections data).length
          last_detection_time :=
            if 0 < (peopleDetections data).length then now else s.last_detection_time } := by
  unfold DeviceState.process_inference_data
  by_cases h : 0 < (peopleDetections data).length <;> simp [h]

/-- C4: each ingest replaces `last_inference_data` wholesale with the new
payload and recomputes `people_count` from scratch as the number of
detections in that payload with class id 0 — independently of the
previous state (two arbitrary prior states get the same count) — and a
payload carrying no detections (absent or empty `DeserializedData`)
resets `people_count` to 0. -/
theorem process_inference_data_recomputes (s s2 : DeviceState) (data : InferenceData)
    (vac vac2 : ℤ) (now now2 : ℚ) :
    (s.process_inference_data data vac now).last_inference_data = some data ∧
    (s.process_inference_data data vac now).people_count
      = (peopleDetections data).length ∧
    (s.process_inference_data data vac now).people_count
      = (s2.process_inference_data data vac2 now2).people_count ∧
    (data.deserializedData = none ∨ data.deserializedData = some [] →
      (s.process_inference_data data vac now).people_count = 0) := by
  refine ⟨?_, ?_, ?_, ?_⟩ <;> simp [process_inference_data_def]
  rintro (hd | hd) <;> simp [peopleDetections, hd]

theorem process_inference_data_recomputes_witness :
    (sampleState.process_inference_data ⟨some []⟩ 5 200).people_count = 0 :=
  (process_inference_data_recomputes sampleState sampleState ⟨some []⟩ 5 5 200 200).2.2.2
    (Or.inr rfl)

/-- C5 (amended): on an ingest, `last_detection_time` is set to `now`
exactly when the recomputed `people_count` is positive — regardless of
whether the previous count was already positive — is left unchanged when
the recomputed count is zero, and never decreases provided `now` is not
earlier than the stored value. -/
theorem process_inference_data_last_detection (s : DeviceState) (data : InferenceData)
    (vac : ℤ) (now : ℚ) :
    (0 < (s.process_inference_data data vac now).people_count →
      (s.process_inference_data data vac now).last_detection_time = now) ∧
    ((s.process_inference_data data vac now).people_count = 0 →
      (s.process_inference_data data vac now).last_detection_time
        = s.last_detection_time) ∧
    (s.last_detection_time ≤ now →
      s.last_detection_time
        ≤ (s.process_inference_data data vac now).last_detection_time) := by
  simp only [process_inference_data_def]
  by_cases h : 0 < (peopleDetections data).length <;> simp [h]
  intro h2
  rw [h2] at h
  simp at h

theorem process_inference_data_last_detection_witness :
    (sampleState.process_inference_data sampleData2 5 200).last_detection_time = 200 :=
  (process_inference_data_last_detection sampleState sampleData2 5 200).1 (by decide)

/-- C5 counterexample: a slot whose `people_count` is already positive
(3) ingests a payload that again counts positive (2); `people_count` does
not transition to positive, yet `last_detection_time` is rewritten from
100 to the ingest instant 200 — the code updates it whenever the new
count is positive, not only on transitions. -/
theorem process_inference_data_updates_time_without_transition :
    0 < sampleState.people_count ∧
    0 < (sampleState.process_inference_data sampleData2 5 200).people_count ∧
    (sampleState.process_inference_data sampleData2 5 200).last_detection_time
      ≠ sampleState.last_detection_time := by
  refine ⟨by decide, by decide, ?_⟩
  simp [process_inference_data_def, sampleState]
  norm_num [peopleDetections, sampleData2]
  decide

theorem pyEndsWith_self (s : String) : pyEndsWith s s = true := by
  simp [pyEndsWith]

theorem dictLookup_eq_none_of_not_key (d : IdIndex) (k : String)
    (h : ∀ key ∈ dictKeys d, key ≠ k) : dictLookup d k = none := by
  induction d with
  | nil => rfl
  | cons p d ih =>
    have hp : p.1 ≠ k := h p.1 (by simp [dictKeys])
    rw [dictLookup, if_neg (by simpa using hp)]
    exact ih fun key hkey => h key (by simp [dictKeys] at hkey ⊢; exact Or.inr hkey)

theorem dictLookup_eq_none_of_no_suffix (d : IdIndex) (raw : String)
    (hall : ∀ full ∈ dictKeys d, pyEndsWith full raw = false) :
    dictLookup d raw = none := by
  refine dictLookup_eq_none_of_not_key d raw fun key hkey hcontra => ?_
  have hfull := hall key hkey
  rw [hcontra, pyEndsWith_self] at hfull
  exact Bool.noConfusion hfull

/-- C6: resolution of the inbound raw device id — an id that already
carries the `"Aid-"` prefix is used unchanged; otherwise the bound
canonical ids are scanned (in index order) and the first one ending with
the raw id is substituted; and when no bound canonical id has the raw id
as a suffix, the whole ingest is dropped: the manager (every slot and the
reverse index) is returned unchanged. -/
theorem resolve_and_ingest (m : DeviceManager) (raw : String) (data : InferenceData)
    (now : ℚ) :
    (pyStartsWith raw "Aid-" = true → resolveDeviceId m raw = raw) ∧
    (pyStartsWith raw "Aid-" = false →
      ∀ full, (dictKeys m.id_to_index).find? (fun f => pyEndsWith f raw) = some full →
        resolveDeviceId m raw = full) ∧
    ((∀ full ∈ dictKeys m.id_to_index, pyEndsWith full raw = false) →
      ingest m raw data now = m) := by
  refine ⟨?_, ?_, ?_⟩
  · intro hpre
    simp [resolveDeviceId, hpre]
  · intro hpre full hfind
    simp [resolveDeviceId, hpre, hfind]
  · intro hall
    have hres : resolveDeviceId m raw = raw := by
      unfold resolveDeviceId
      by_cases hpre : pyStartsWith raw "Aid-"
      · simp [hpre]
      · have hnone : (dictKeys m.id_to_index).find? (fun f => pyEndsWith f raw) = none := by
          rw [List.find?_eq_none]
          intro x hx
          simp [hall x hx]
        simp [hpre, hnone]
    unfold ingest
    rw [hres]
    unfold DeviceManager.process_inference_data
    rw [dictLookup_eq_none_of_no_suffix m.id_to_index raw hall]

theorem resolve_and_ingest_witness :
    resolveDeviceId sampleManager "0000000a53"
        = "Aid-80070001-0000-2000-9002-000000000a53" ∧
      ingest sampleManager "zzz" sampleData2 0 = sampleManager :=
  ⟨(resolve_and_ingest sampleManager "0000000a53" sampleData2 0).2.1 (by decide) _
      (by decide),
    (resolve_and_ingest sampleManager "zzz" sampleData2 0).2.2 (by decide)⟩

theorem broadcastLoop_aux (fails : Nat → Bool) (conns : List Nat) (a b : List Nat) :
    conns.foldl
        (fun acc c => if fails c then (acc.1, acc.2 ++ [c]) else (acc.1 ++ [c], acc.2))
        (a, b)
      = (a ++ conns.filter (fun c => !fails c), b ++ conns.filter fails) := by
  induction conns generalizing a b with
  | nil => simp
  | cons hd tl ih => by_cases h : fails hd <;> simp [List.filter_cons, h, ih]

theorem broadcastLoop_eq (conns : List Nat) (fails : Nat → Bool) :
    broadcastLoop conns fails = (conns.filter (fun c => !fails c), conns.filter fails) := by
  rw [broadcastLoop]
  simpa using broadcastLoop_aux fails conns [] []

theorem removeAll_mem (ds : List Nat) (conns : List Nat) (h : conns.Nodup) (c : Nat) :
    c ∈ removeAll conns ds ↔ c ∈ conns ∧ c ∉ ds := by
  induction ds generalizing conns with
  | nil => simp [removeAll]
  | cons d ds ih =>
    simp only [removeAll, List.foldl_cons] at ih ⊢
    rw [ih (conns.erase d) (h.erase d), List.Nodup.mem_erase_iff h, List.mem_cons]
    tauto

/-- C7: during one `broadcast_json`, every registered connection whose
write does not fail receives the message (in registration-iteration
order), and afterwards every failing connection has been removed from the
active set while every non-failing connection is still registered (and
nothing new appears). -/
theorem broadcast_json_isolates_failures (m : WSManager) (fails : Nat → Bool)
    (h : m.active_connections.Nodup) :
    (broadcast_json m fails).2 = m.active_connections.filter (fun c => !fails c) ∧
    (∀ c ∈ m.active_connections, fails c = false → c ∈ (broadcast_json m fails).2) ∧
    (∀ c ∈ m.active_connections, fails c = false →
      c ∈ (broadcast_json m fails).1.active_connections) ∧
    (∀ c ∈ m.active_connections, fails c = true →
      c ∉ (broadcast_json m fails).1.active_connections) ∧
    (∀ c, c ∈ (broadcast_json m fails).1.active_connections → c ∈ m.active_connections) := by
  unfold broadcast_json
  simp only [broadcastLoop_eq]
  refine ⟨trivial, ?_, ?_, ?_, ?_⟩
  · intro c hc hf
    simp [List.mem_filter, hc, hf]
  · intro c hc hf
    rw [removeAll_mem _ _ h]
    refine ⟨hc, ?_⟩
    simp [List.mem_filter, hf]
  · intro c hc hf
    rw [removeAll_mem _ _ h]
    rintro ⟨-, hnot⟩
    exact hnot (by simp [List.mem_filter, hc, hf])
  · intro c hc
    exact ((removeAll_mem _ _ h c).mp hc).1

theorem broadcast_json_isolates_failures_witness :
    (broadcast_json ⟨[1, 2, 3]⟩ (fun c => c == 2)).2 = [1, 3] ∧
      (broadcast_json ⟨[1, 2, 3]⟩ (fun c => c == 2)).1.active_connections = [1, 3] :=
  ⟨((broadcast_json_isolates_failures ⟨[1, 2, 3]⟩ (fun c => c == 2) (by decide)).1).trans
      (by decide),
    by decide⟩

theorem dictLookup_dictInsert (d : IdIndex) (k : String) (v : Nat) (k' : String) :
    dictLookup (dictInsert d k v) k' = if k' = k then some v else dictLookup d k' := by
  induction d with
  | nil =>
    by_cases h : k' = k
    · simp [dictInsert, dictLookup, h]
    · have h2 : ¬(k = k') := fun hcon => h hcon.symm
      simp [dictInsert, dictLookup, h, h2]
  | cons p d ih =>
    by_cases hp : p.1 = k
    · by_cases h : k' = k
      · simp [dictInsert, dictLookup, hp, h]
      · have h2 : ¬(k = k') := fun hcon => h hcon.symm
        simp [dictInsert, dictLookup, hp, h, h2]
    · by_cases h : k' = k
      · subst h
        simp [dictInsert, dictLookup, hp, ih]
      · simp [dictInsert, dictLookup, hp, h, ih]

theorem mem_dictKeys_dictInsert (d : IdIndex) (k : String) (v : Nat) (a : String) :
    a ∈ dictKeys (dictInsert d k v) ↔ a = k ∨ a ∈ dictKeys d := by
  induction d with
  | nil => simp [dictInsert, dictKeys]
  | cons p d ih =>
    by_cases hp : p.1 = k
    · rw [dictInsert, if_pos (by simpa using hp)]
      simp [dictKeys, hp]
    · rw [dictInsert, if_neg (by simpa using hp)]
      simp only [dictKeys, List.map_cons, List.mem_cons] at ih ⊢
      rw [ih]
      tauto

theorem dictKeys_dictInsert_nodup (d : IdIndex) (k : String) (v : Nat)
    (h : (dictKeys d).Nodup) : (dictKeys (dictInsert d k v)).Nodup := by
  induction d with
  | nil => simp [dictInsert, dictKeys]
  | cons p d ih =>
    simp only [dictKeys, List.map_cons, List.nodup_cons] at h
    by_cases hp : p.1 = k
    · rw [dictInsert, if_pos (by simpa using hp)]
      simp only [dictKeys, List.map_cons, List.nodup_cons]
      exact ⟨hp ▸ h.1, h.2⟩
    · rw [dictInsert, if_neg (by simpa using hp)]
      simp only [dictKeys, List.map_cons, List.nodup_cons]
      refine ⟨?_, ih h.2⟩
      rw [show dictKeys (dictInsert d k v) = dictKeys (dictInsert d k v) from rfl] at *
      intro hcon
      rcases (mem_dictKeys_dictInsert d k v p.1).mp hcon with hk | hmem
      · exact hp hk
      · exact h.1 hmem

theorem dictLookup_dictDelete (d : IdIndex) (k k' : String)
    (h : (dictKeys d).Nodup) :
    dictLookup (dictDelete d k) k' = if k' = k then none else dictLookup d k' := by
  induction d with
  | nil => by_cases hk : k' = k <;> simp [dictDelete, dictLookup, hk]
  | cons p d ih =>
    simp only [dictKeys, List.map_cons, List.nodup_cons] at h
    by_cases hp : p.1 = k
    · rw [dictDelete, if_pos (by simpa using hp)]
      by_cases hk : k' = k
      · rw [if_pos hk]
        exact dictLookup_eq_none_of_not_key d k' fun key hkey hcon =>
          h.1 (by rw [hp, ← hk, ← hcon]; exact hkey)
      · rw [if_neg hk, dictLookup, if_neg]
        simp only [beq_iff_eq]
        rw [hp]
        exact fun hcon => hk hcon.symm
    · rw [dictDelete, if_neg (by simpa using hp)]
      by_cases hq : p.1 = k'
      · have hk : k' ≠ k := fun hcon => hp (hq.trans hcon)
        rw [if_neg hk, dictLookup, dictLookup, if_pos (by simpa using hq),
          if_pos (by simpa using hq)]
      · rw [dictLookup, if_neg (by simpa using hq), ih h.2]
        by_cases hk : k' = k
        · simp [hk]
        · rw [if_neg hk, if_neg hk, dictLookup, if_neg (by simpa using hq)]

theorem mem_dictKeys_dictDelete (d : IdIndex) (k a : String)
    (h : a ∈ dictKeys (dictDelete d k)) : a ∈ dictKeys d := by
  induction d with
  | nil => simpa [dictDelete] using h
  | cons p d ih =>
    by_cases hp : p.1 = k
    · rw [dictDelete, if_pos (by simpa using hp)] at h
      simp only [dictKeys, List.map_cons, List.mem_cons]
      exact Or.inr h
    · rw [dictDelete, if_neg (by simpa using hp)] at h
      simp only [dictKeys, List.map_cons, List.mem_cons] at h ⊢
      rcases h with h | h
      · exact Or.inl h
      · exact Or.inr (ih h)

theorem dictKeys_dictDelete_nodup (d : IdIndex) (k : String)
    (h : (dictKeys d).Nodup) : (dictKeys (dictDelete d k)).Nodup := by
  induction d with
  | nil => simpa [dictDelete] using h
  | cons p d ih =>
    simp only [dictKeys, List.map_cons, List.nodup_cons] at h
    by_cases hp : p.1 = k
    · rw [dictDelete, if_pos (by simpa using hp)]
      exact h.2
    · rw [dictDelete, if_neg (by simpa using hp)]
      simp only [dictKeys, List.map_cons, List.nodup_cons]
      exact ⟨fun hcon => h.1 (mem_dictKeys_dictDelete d k p.1 hcon), ih h.2⟩

theorem foldl_updateStep_lookup_empty (l : List (Nat × DeviceState)) (d : IdIndex) :
    dictLookup
        (l.foldl
          (fun acc p => if p.2.device_id ≠ "" then dictInsert acc p.2.device_id p.1 else acc)
          d)
        ""
      = dictLookup d "" := by
  induction l generalizing d with
  | nil => rfl
  | cons q l ih =>
    rw [List.foldl_cons, ih]
    by_cases hq : q.2.device_id ≠ ""
    · rw [if_pos hq, dictLookup_dictInsert, if_neg fun hcon => hq hcon.symm]
    · rw [if_neg hq]

theorem foldl_updateStep_lookup (l : List (Nat × DeviceState)) (d : IdIndex)
    (id : String) (hid : id ≠ "") :
    dictLookup
        (l.foldl
          (fun acc p => if p.2.device_id ≠ "" then dictInsert acc p.2.device_id p.1 else acc)
          d)
        id
      = match l.reverse.find? (fun p => p.2.device_id == id) with
        | some p => some p.1
        | none => dictLookup d id := by
  induction l generalizing d with
  | nil => rfl
  | cons q l ih =>
    rw [List.foldl_cons, ih, List.reverse_cons, List.find?_append]
    cases hf : l.reverse.find? (fun p => p.2.device_id == id) with
    | some p => simp
    | none =>
      simp only [Option.none_or]
      by_cases hq : q.2.device_id = id
      · have hq2 : q.2.device_id ≠ "" := by rw [hq]; exact hid
        rw [if_pos hq2, dictLookup_dictInsert, if_pos hq.symm]
        simp [List.find?, hq]
      · have hqb : (q.2.device_id == id) = false := by simp [hq]
        by_cases hq2 : q.2.device_id ≠ ""
        · rw [if_pos hq2, dictLookup_dictInsert, if_neg fun hcon => hq hcon.symm]
          simp [List.find?, hqb]
        · rw [if_neg hq2]
          simp [List.find?, hqb]

theorem foldl_updateStep_keys_nodup (l : List (Nat × DeviceState)) (d : IdIndex)
    (h : (dictKeys d).Nodup) :
    (dictKeys
        (l.foldl
          (fun acc p => if p.2.device_id ≠ "" then dictInsert acc p.2.device_id p.1 else acc)
          d)).Nodup := by
  induction l generalizing d with
  | nil => exact h
  | cons q l ih =>
    rw [List.foldl_cons]
    by_cases hq : q.2.device_id ≠ ""
    · rw [if_pos hq]
      exact ih _ (dictKeys_dictInsert_nodup d q.2.device_id q.1 h)
    · rw [if_neg hq]
      exact ih _ h

/-- `_update_id_mapping` builds an exact reverse index from any device
list without duplicate non-empty ids. -/
theorem updateIdMapping_spec (devices : List DeviceState) (hnd : NoDupIds devices) :
    (dictKeys (updateIdMapping devices)).Nodup ∧
    ∀ id idx, dictLookup (updateIdMapping devices) id = some idx ↔
      id ≠ "" ∧ ∃ dev, devices[idx]? = some dev ∧ dev.device_id = id := by
  constructor
  · exact foldl_updateStep_keys_nodup devices.enum [] List.nodup_nil
  intro id idx
  by_cases hid : id = ""
  · subst hid
    rw [updateIdMapping, foldl_updateStep_lookup_empty]
    simp [dictLookup]
  · rw [updateIdMapping, foldl_updateStep_lookup devices.enum [] id hid]
    constructor
    · intro h
      cases hf : devices.enum.reverse.find? (fun p => p.2.device_id == id) with
      | none => rw [hf] at h; exact absurd h (by simp [dictLookup])
      | some p =>
        rw [hf] at h
        simp only [Option.some_inj] at h
        subst h
        have hpmem : p ∈ devices.enum := by
          have := List.mem_of_find?_eq_some hf
          simpa using this
        have hpe : p.2.device_id = id := by simpa using List.find?_some hf
        refine ⟨hid, p.2, ?_, hpe⟩
        have : (p.1, p.2) ∈ devices.enum := by simpa using hpmem
        simpa using List.mk_mem_enum_iff_getElem?.mp this
    · rintro ⟨-, dev, hdev, hdevid⟩
      have hmem : (idx, dev) ∈ devices.enum := List.mk_mem_enum_iff_getElem?.mpr (by simp [hdev])
      have hsome : (devices.enum.reverse.find? (fun p => p.2.device_id == id)).isSome := by
        rw [List.find?_isSome]
        exact ⟨(idx, dev), by simpa using hmem, by simpa using hdevid⟩
      obtain ⟨p, hp⟩ := Option.isSome_iff_exists.mp hsome
      rw [hp]
      have hpmem : p ∈ devices.enum := by simpa using List.mem_of_find?_eq_some hp
      have hpe : p.2.device_id = id := by simpa using List.find?_some hp
      have hpidx : devices[p.1]? = some p.2 := by
        have : (p.1, p.2) ∈ devices.enum := by simpa using hpmem
        simpa using List.mk_mem_enum_iff_getElem?.mp this
      by_cases hne : p.1 = idx
      · simp [hne]
      · exfalso
        have hempty := hnd p.1 idx p.2 dev hne hpidx hdev (hpe.trans hdevid.symm)
        exact hid (hpe.symm.trans hempty ▸ rfl)

theorem exists_dev_congr (l l' : List DeviceState) (idx : Nat)
    (h : (l'[idx]?).map DeviceState.device_id = (l[idx]?).map DeviceState.device_id)
    (id : String) :
    (∃ dev, l'[idx]? = some dev ∧ dev.device_id = id) ↔
      ∃ dev, l[idx]? = some dev ∧ dev.device_id = id := by
  cases h1 : l'[idx]? with
  | none =>
    rw [h1] at h
    cases h2 : l[idx]? with
    | none => simp
    | some e => rw [h2] at h; simp at h
  | some e' =>
    rw [h1] at h
    cases h2 : l[idx]? with
    | none => rw [h2] at h; simp at h
    | some e =>
      rw [h2] at h
      simp only [Option.map_some'] at h
      simp only [Option.some_inj] at h
      simp [h]

/-- Changing neither the reverse index nor any slot's `device_id`
preserves the bijection. -/
theorem mappingConsistent_congr (m m' : DeviceManager)
    (hidx : m'.id_to_index = m.id_to_index)
    (hdev : ∀ j : Nat, (m'.devices[j]?).map DeviceState.device_id
      = (m.devices[j]?).map DeviceState.device_id)
    (h : MappingConsistent m) : MappingConsistent m' := by
  obtain ⟨hnd, hkeys, hspec⟩ := h
  refine ⟨?_, by rw [hidx]; exact hkeys, ?_⟩
  · intro i j di dj hij hi hj heq
    have hmi := hdev i
    have hmj := hdev j
    rw [hi] at hmi
    rw [hj] at hmj
    cases hmi2 : m.devices[i]? with
    | none => rw [hmi2] at hmi; simp at hmi
    | some ei =>
      cases hmj2 : m.devices[j]? with
      | none => rw [hmj2] at hmj; simp at hmj
      | some ej =>
        rw [hmi2] at hmi
        rw [hmj2] at hmj
        simp only [Option.map_some', Option.some_inj] at hmi hmj
        rw [hmi]
        exact hnd i j ei ej hij hmi2 hmj2 (by rw [← hmi, ← hmj]; exact heq)
  · intro id idx
    rw [hidx, hspec id idx, and_congr_right_iff]
    intro _
    exact (exists_dev_congr m.devices m'.devices idx (hdev idx) id).symm

/-- A decidable sufficient condition for `NoDupIds`. -/
theorem noDupIds_of_pairwise (l : List DeviceState)
    (h : (l.map DeviceState.device_id).Pairwise fun a b => a = b → a = "") :
    NoDupIds l := by
  rw [List.pairwise_iff_getElem] at h
  intro i j di dj hij hi hj heq
  obtain ⟨hilt, hig⟩ := List.getElem?_eq_some.mp hi
  obtain ⟨hjlt, hjg⟩ := List.getElem?_eq_some.mp hj
  rcases Nat.lt_or_ge i j with hlt | hge
  · have := h i j (by simpa using hilt) (by simpa using hjlt) hlt
    simp only [List.getElem_map] at this
    rw [hig, hjg] at this
    exact this heq
  · have hjlti : j < i := Nat.lt_of_le_of_ne hge fun hcon => hij hcon.symm
    have := h j i (by simpa using hjlt) (by simpa using hilt) hjlti
    simp only [List.getElem_map] at this
    rw [hig, hjg] at this
    rw [heq]
    exact this heq.symm

/-- Normalized form of `update_device_info` on an in-range index. -/
theorem update_device_info_def (m : DeviceManager) (index : Int)
    (newId dn : Option String)
    (hb : 0 ≤ index ∧ index < m.devices.length) (device : DeviceState)
    (hdev : m.devices[index.toNat]? = some device) :
    update_device_info m index newId dn =
      { m with
          devices := m.devices.set index.toNat
            { device with
                device_id := newId.getD device.device_id
                display_name := dn.getD device.display_name }
          id_to_index :=
            if device.device_id ≠ newId.getD device.device_id then
              if newId.getD device.device_id ≠ "" then
                dictInsert
                  (if (dictLookup m.id_to_index device.device_id).isSome then
                    dictDelete m.id_to_index device.device_id
                  else m.id_to_index)
                  (newId.getD device.device_id) index.toNat
              else
                if (dictLookup m.id_to_index device.device_id).isSome then
                  dictDelete m.id_to_index device.device_id
                else m.id_to_index
            else m.id_to_index } := by
  unfold update_device_info
  rw [if_pos hb, hdev]

/-- Rebinding a slot preserves the bijection whenever the incoming
device id is not already held by a different slot. -/
theorem update_device_info_consistent (m : DeviceManager) (index : Int)
    (newId dn : Option String) (h : MappingConsistent m)
    (hfresh : ∀ (j : Nat) (dj : DeviceState), j ≠ index.toNat →
      m.devices[j]? = some dj → dj.device_id = newId.getD "" → newId.getD "" = "") :
    MappingConsistent (update_device_info m index newId dn) := by
  obtain ⟨hnd, hkeys, hspec⟩ := h
  by_cases hb : 0 ≤ index ∧ index < m.devices.length
  case neg =>
    unfold update_device_info
    rw [if_neg hb]
    exact ⟨hnd, hkeys, hspec⟩
  case pos =>
  have hilt : index.toNat < m.devices.length := by omega
  cases hdevq : m.devices[index.toNat]? with
  | none =>
    rw [List.getElem?_eq_getElem hilt] at hdevq
    exact absurd hdevq (by simp)
  | some device =>
  rw [update_device_info_def m index newId dn hb device hdevq]
  set new := newId.getD device.device_id with hnewdef
  set old := device.device_id with holddef
  set i := index.toNat with hidef
  set device1 : DeviceState :=
    { device with device_id := new, display_name := dn.getD device.display_name }
    with hdev1def
  set D := m.devices.set i device1 with hDdef
  have hdev1id : device1.device_id = new := rfl
  have hDi : D[i]? = some device1 := by
    rw [hDdef, List.getElem?_set_self hilt]
  have hDj : ∀ j : Nat, j ≠ i → D[j]? = m.devices[j]? := by
    intro j hj
    rw [hDdef, List.getElem?_set_ne fun hcon => hj hcon.symm]
  by_cases hch : old ≠ new
  case neg =>
    push_neg at hch
    rw [if_neg (by simp [hch])]
    refine mappingConsistent_congr m _ rfl ?_ ⟨hnd, hkeys, hspec⟩
    intro j
    by_cases hj : j = i
    · subst hj
      show (D[i]?).map DeviceState.device_id = (m.devices[i]?).map DeviceState.device_id
      rw [hDi, hdevq]
      simp [hdev1id, ← hch]
    · show (D[j]?).map DeviceState.device_id = (m.devices[j]?).map DeviceState.device_id
      rw [hDj j hj]
  case pos =>
  have hnewId : newId.getD "" = new := by
    cases hni : newId with
    | none =>
      exfalso
      apply hch
      rw [hnewdef, hni]
      rfl
    | some n =>
      rw [hnewdef, hni]
      rfl
  rw [if_pos hch]
  set d1 := if (dictLookup m.id_to_index old).isSome then dictDelete m.id_to_index old
    else m.id_to_index with hd1def
  have hd1keys : (dictKeys d1).Nodup := by
    rw [hd1def]
    split
    · exact dictKeys_dictDelete_nodup _ _ hkeys
    · exact hkeys
  have hlookd1 : ∀ id', dictLookup d1 id'
      = if id' = old then none else dictLookup m.id_to_index id' := by
    intro id'
    rw [hd1def]
    by_cases hos : (dictLookup m.id_to_index old).isSome
    · rw [if_pos hos, dictLookup_dictDelete _ _ _ hkeys]
    · rw [if_neg hos]
      by_cases hoeq : id' = old
      · rw [if_pos hoeq, hoeq]
        exact Option.not_isSome_iff_eq_none.mp hos
      · rw [if_neg hoeq]
  set I := if new ≠ "" then dictInsert d1 new i else d1 with hIdef
  have hIkeys : (dictKeys I).Nodup := by
    rw [hIdef]
    split
    · exact dictKeys_dictInsert_nodup _ _ _ hd1keys
    · exact hd1keys
  have hlookI : ∀ id', dictLookup I id' =
      if new ≠ "" ∧ id' = new then some i
      else if id' = old then none
      else dictLookup m.id_to_index id' := by
    intro id'
    rw [hIdef]
    by_cases hne : new ≠ ""
    · rw [if_pos hne, dictLookup_dictInsert]
      by_cases heq : id' = new
      · rw [if_pos heq, if_pos ⟨hne, heq⟩]
      · rw [if_neg heq, if_neg fun hcon : new ≠ "" ∧ id' = new => heq hcon.2, hlookd1]
    · rw [if_neg hne, hlookd1, if_neg fun hcon : new ≠ "" ∧ id' = new => hne hcon.1]
  refine ⟨?_, hIkeys, ?_⟩
  · intro j k dj dk hjk hj hk heq
    by_cases hji : j = i
    · subst hji
      rw [hDi] at hj
      simp only [Option.some_inj] at hj
      have hdj : dj.device_id = new := by rw [← hj]
      have hki : k ≠ i := fun hcon => hjk hcon.symm
      rw [hDj k hki] at hk
      have hnewe := hfresh k dk hki hk (by rw [hnewId, ← heq, hdj])
      rw [hnewId] at hnewe
      rw [hdj]
      exact hnewe
    · by_cases hki : k = i
      · subst hki
        rw [hDi] at hk
        simp only [Option.some_inj] at hk
        have hdk : dk.device_id = new := by rw [← hk]
        rw [hDj j hji] at hj
        have hnewe := hfresh j dj hji hj (by rw [hnewId, heq, hdk])
        rw [hnewId] at hnewe
        rw [heq, hdk]
        exact hnewe
      · rw [hDj j hji] at hj
        rw [hDj k hki] at hk
        exact hnd j k dj dk hjk hj hk heq
  · intro id idx
    show dictLookup I id = some idx ↔ id ≠ "" ∧ ∃ dev, D[idx]? = some dev ∧ dev.device_id = id
    rw [hlookI id]
    by_cases h1 : new ≠ "" ∧ id = new
    · rw [if_pos h1]
      constructor
      · intro hsome
        simp only [Option.some_inj] at hsome
        subst hsome
        exact ⟨by rw [h1.2]; exact h1.1, device1, hDi, by rw [hdev1id, h1.2]⟩
      · rintro ⟨hne0, dev, hdevidx, hdevid⟩
        by_cases hidx : idx = i
        · rw [hidx]
        · rw [hDj idx hidx] at hdevidx
          have := hfresh idx dev hidx hdevidx (by rw [hnewId, hdevid, h1.2])
          rw [hnewId] at this
          exact absurd this h1.1
    · rw [if_neg h1]
      by_cases h2 : id = old
      · rw [if_pos h2]
        constructor
        · intro hcon
          exact absurd hcon (by simp)
        · rintro ⟨hne0, dev, hdevidx, hdevid⟩
          exfalso
          by_cases hidx : idx = i
          · subst hidx
            rw [hDi] at hdevidx
            simp only [Option.some_inj] at hdevidx
            apply hch
            rw [← hdevidx] at hdevid
            rw [hdev1id] at hdevid
            exact (hdevid.trans h2).symm
          · rw [hDj idx hidx] at hdevidx
            have hempty := hnd idx i dev device hidx hdevidx hdevq (by rw [hdevid, h2])
            exact hne0 (by rw [← hdevid, hempty])
      · rw [if_neg h2, hspec id idx, and_congr_right_iff]
        intro hne0
        by_cases hidx : idx = i
        · subst hidx
          constructor
          · rintro ⟨dev, hdevidx, hdevid⟩
            exfalso
            rw [hdevq] at hdevidx
            simp only [Option.some_inj] at hdevidx
            rw [← hdevidx] at hdevid
            exact h2 hdevid.symm
          · rintro ⟨dev, hdevidx, hdevid⟩
            exfalso
            rw [hDi] at hdevidx
            simp only [Option.some_inj] at hdevidx
            rw [← hdevidx, hdev1id] at hdevid
            exact h1 ⟨by rw [hdevid]; exact hne0, hdevid.symm⟩
        · rw [hDj idx hidx]

theorem update_device_background_consistent (m : DeviceManager) (index : Int)
    (path : String) (h : MappingConsistent m) :
    MappingConsistent (update_device_background m index path) := by
  unfold update_device_background
  by_cases hb : 0 ≤ index ∧ index < m.devices.length
  · rw [if_pos hb]
    cases hdev : m.devices[index.toNat]? with
    | none => exact h
    | some device =>
      refine mappingConsistent_congr m _ rfl ?_ h
      intro j
      by_cases hj : j = index.toNat
      · subst hj
        show ((m.devices.set index.toNat
            { device with background_image := path })[index.toNat]?).map
            DeviceState.device_id = (m.devices[index.toNat]?).map DeviceState.device_id
        have hjlt : index.toNat < m.devices.length := by omega
        rw [List.getElem?_set_self hjlt, hdev]
        rfl
      · show ((m.devices.set index.toNat
            { device with background_image := path })[j]?).map DeviceState.device_id
          = (m.devices[j]?).map DeviceState.device_id
        rw [List.getElem?_set_ne fun hcon => hj hcon.symm]
  · rw [if_neg hb]
    exact h

theorem mgr_process_def_none (m : DeviceManager) (device_id : String)
    (data : InferenceData) (now : ℚ)
    (hl : dictLookup m.id_to_index device_id = none) :
    m.process_inference_data device_id data now = m := by
  unfold DeviceManager.process_inference_data
  rw [hl]

theorem mgr_process_def_some (m : DeviceManager) (device_id : String)
    (data : InferenceData) (now : ℚ) (index : Nat) (device : DeviceState)
    (hl : dictLookup m.id_to_index device_id = some index)
    (hdev : m.devices[index]? = some device) :
    m.process_inference_data device_id data now =
      { m with devices :=
          m.devices.set index (device.process_inference_data data m.vacant_time_minutes now) } := by
  unfold DeviceManager.process_inference_data
  rw [hl]
  simp [hdev]

theorem process_inference_data_mgr_consistent (m : DeviceManager) (device_id : String)
    (data : InferenceData) (now : ℚ) (h : MappingConsistent m) :
    MappingConsistent (m.process_inference_data device_id data now) := by
  cases hl : dictLookup m.id_to_index device_id with
  | none =>
    rw [mgr_process_def_none m device_id data now hl]
    exact h
  | some index =>
    obtain ⟨-, device, hdev, -⟩ := (h.2.2 device_id index).mp hl
    rw [mgr_process_def_some m device_id data now index device hl hdev]
    refine mappingConsistent_congr m _ rfl ?_ h
    intro j
    by_cases hj : j = index
    · rw [hj]
      show ((m.devices.set index
          (device.process_inference_data data m.vacant_time_minutes now))[index]?).map
          DeviceState.device_id = (m.devices[index]?).map DeviceState.device_id
      obtain ⟨hjlt, -⟩ := List.getElem?_eq_some.mp hdev
      rw [List.getElem?_set_self hjlt, hdev]
      simp [process_inference_data_def]
    · show ((m.devices.set index
          (device.process_inference_data data m.vacant_time_minutes now))[j]?).map
          DeviceState.device_id = (m.devices[j]?).map DeviceState.device_id
      rw [List.getElem?_set_ne fun hcon => hj hcon.symm]

theorem mkDeviceManager_consistent (vac : ℤ) (cfgs : List DeviceConfig)
    (hnd : NoDupIds (mkDeviceManager vac cfgs).devices) :
    MappingConsistent (mkDeviceManager vac cfgs) := by
  refine ⟨hnd, ?_, ?_⟩
  · exact (updateIdMapping_spec (mkDeviceManager vac cfgs).devices hnd).1
  · intro id idx
    exact (updateIdMapping_spec (mkDeviceManager vac cfgs).devices hnd).2 id idx

/-- C8 (amended): the deviceId↔slot bijection — no two slots hold the
same non-empty id, the reverse index maps an id to exactly the slot
holding it, and the index has no duplicate keys — is established by the
startup configuration provided the configuration binds no id to two
slots, and is preserved by rebinding provided the incoming id is not
already held by a different slot (the rebind removing the old
reverse-index entry and inserting the new one), as well as by background
updates and ingests unconditionally.  Without these provisos the code
does not preserve the invariant (see the counterexample). -/
theorem mapping_bijection_maintained :
    (∀ (vac : ℤ) (cfgs : List DeviceConfig),
      NoDupIds (mkDeviceManager vac cfgs).devices →
        MappingConsistent (mkDeviceManager vac cfgs)) ∧
    (∀ (m : DeviceManager) (index : Int) (newId dn : Option String),
      MappingConsistent m →
      (∀ (j : Nat) (dj : DeviceState), j ≠ index.toNat →
        m.devices[j]? = some dj → dj.device_id = newId.getD "" → newId.getD "" = "") →
      MappingConsistent (update_device_info m index newId dn)) ∧
    (∀ (m : DeviceManager) (index : Int) (path : String),
      MappingConsistent m → MappingConsistent (update_device_background m index path)) ∧
    (∀ (m : DeviceManager) (device_id : String) (data : InferenceData) (now : ℚ),
      MappingConsistent m →
        MappingConsistent (m.process_inference_data device_id data now)) :=
  ⟨mkDeviceManager_consistent, update_device_info_consistent,
    update_device_background_consistent, process_inference_data_mgr_consistent⟩

/-- C8 counterexample: configuring two slots with the same non-empty
device id `"A"` violates the bijection already at startup — slot 0 and
slot 1 both hold `"A"` — so the invariant is not maintained by every
configuration, contrary to the claim. -/
theorem duplicate_config_breaks_bijection :
    ¬ MappingConsistent
        (mkDeviceManager 5 [⟨some "A", none, none⟩, ⟨some "A", none, none⟩]) := by
  intro h
  have h0 : (mkDeviceManager 5
        [⟨some "A", none, none⟩, ⟨some "A", none, none⟩]).devices[0]?
      = some (DeviceState.init "A" "" "") := by decide
  have h1 : (mkDeviceManager 5
        [⟨some "A", none, none⟩, ⟨some "A", none, none⟩]).devices[1]?
      = some (DeviceState.init "A" "" "") := by decide
  have hcon := h.1 0 1 (DeviceState.init "A" "" "") (DeviceState.init "A" "" "")
    (by decide) h0 h1 rfl
  exact absurd hcon (by decide)

theorem mapping_bijection_maintained_witness :
    MappingConsistent sampleManager ∧
      MappingConsistent (update_device_background sampleManager 2 "bg.png") :=
  have h1 : MappingConsistent sampleManager :=
    mapping_bijection_maintained.1 5
      [⟨some "Aid-80070001-0000-2000-9002-000000000a53", some "Room 1", none⟩]
      (noDupIds_of_pairwise _ (by decide))
  ⟨h1, mapping_bijection_maintained.2.2.1 sampleManager 2 "bg.png" h1⟩

theorem mgr_process_def_some_none (m : DeviceManager) (device_id : String)
    (data : InferenceData) (now : ℚ) (index : Nat)
    (hl : dictLookup m.id_to_index device_id = some index)
    (hdev : m.devices[index]? = none) :
    m.process_inference_data device_id data now = m := by
  unfold DeviceManager.process_inference_data
  rw [hl]
  simp [hdev]

/-- C9 (amended): the registry is created at startup with exactly five
slots whatever the configured device list supplies (`for i in
range(5)`), and no modelled operation adds or removes a slot. -/
theorem slot_count_fixed :
    (∀ (vac : ℤ) (cfgs : List DeviceConfig),
      (mkDeviceManager vac cfgs).devices.length = 5) ∧
    (∀ (m : DeviceManager) (index : Int) (newId dn : Option String),
      (update_device_info m index newId dn).devices.length = m.devices.length) ∧
    (∀ (m : DeviceManager) (index : Int) (path : String),
      (update_device_background m index path).devices.length = m.devices.length) ∧
    (∀ (m : DeviceManager) (device_id : String) (data : InferenceData) (now : ℚ),
      (m.process_inference_data device_id data now).devices.length
        = m.devices.length) ∧
    (∀ (m : DeviceManager) (device_id : String) (data : InferenceData) (now : ℚ),
      (ingest m device_id data now).devices.length = m.devices.length) := by
  have hproc : ∀ (m : DeviceManager) (device_id : String) (data : InferenceData)
      (now : ℚ),
      (m.process_inference_data device_id data now).devices.length
        = m.devices.length := by
    intro m device_id data now
    cases hl : dictLookup m.id_to_index device_id with
    | none => rw [mgr_process_def_none m device_id data now hl]
    | some index =>
      cases hdev : m.devices[index]? with
      | none => rw [mgr_process_def_some_none m device_id data now index hl hdev]
      | some device =>
        rw [mgr_process_def_some m device_id data now index device hl hdev]
        simp
  refine ⟨?_, ?_, ?_, hproc, ?_⟩
  · intro vac cfgs
    simp [mkDeviceManager]
  · intro m index newId dn
    unfold update_device_info
    by_cases hb : 0 ≤ index ∧ index < m.devices.length
    · rw [if_pos hb]
      cases hdev : m.devices[index.toNat]? with
      | none => rfl
      | some device => simp
    · rw [if_neg hb]
  · intro m index path
    unfold update_device_background
    by_cases hb : 0 ≤ index ∧ index < m.devices.length
    · rw [if_pos hb]
      cases hdev : m.devices[index.toNat]? with
      | none => rfl
      | some device => simp
    · rw [if_neg hb]
  · intro m device_id data now
    exact hproc m (resolveDeviceId m device_id) data now

theorem slot_count_fixed_witness :
    (mkDeviceManager 5 []).devices.length = 5 ∧
      (update_device_background sampleManager 0 "x").devices.length
        = sampleManager.devices.length :=
  ⟨slot_count_fixed.1 5 [], slot_count_fixed.2.2.1 sampleManager 0 "x"⟩

/-- C9 counterexample: a configuration supplying seven slot entries still
yields five slots — the slot count is hard-coded by `for i in range(5)`,
it is not taken from the configuration. -/
theorem slot_count_ignores_config :
    (mkDeviceManager 5 (List.replicate 7 ⟨none, none, none⟩)).devices.length = 5 ∧
      (mkDeviceManager 5 (List.replicate 7 (⟨none, none, none⟩ : DeviceConfig))).devices.length
        ≠ (List.replicate 7 (⟨none, none, none⟩ : DeviceConfig)).length := by
  constructor <;> decide

/-- C10: for every index outside `0 <= index < len(self.devices)`, both
`update_device_info` and `update_device_background` return the manager
completely unchanged — every slot's fields and the reverse index are kept
— and, being total functions of the embedding, raise nothing. -/
theorem out_of_range_updates_noop (m : DeviceManager) (index : Int)
    (newId dn : Option String) (path : String)
    (h : index < 0 ∨ (m.devices.length : Int) ≤ index) :
    update_device_info m index newId dn = m ∧
      update_device_background m index path = m := by
  have hb : ¬(0 ≤ index ∧ index < m.devices.length) := by omega
  constructor
  · unfold update_device_info
    rw [if_neg hb]
  · unfold update_device_background
    rw [if_neg hb]

theorem out_of_range_updates_noop_witness :
    update_device_info sampleManager (-1) (some "B") none = sampleManager ∧
      update_device_background sampleManager 7 "x" = sampleManager :=
  ⟨(out_of_range_updates_noop sampleManager (-1) (some "B") none "x" (by decide)).1,
    (out_of_range_updates_noop sampleManager 7 (some "B") none "x" (by decide)).2⟩

end MeetingRoom
